import Mathlib

/-
Verification of the ColdReach YC-company enrichment pipeline
(src/yc_companies).  Python records (csv.DictReader rows / dicts from
`{**company, ...}` updates) are modelled as association lists of
string key/value pairs; `company[k]` (which raises KeyError) is the
Option-returning `get?`, `company.get(k, d)` is `getD`, and
`{**company, k1: v1, ..., kn: vn}` is `setKeys` (updating an existing
key keeps its position, a new key is appended, as for Python dicts).
-/

abbrev Record := List (String × String)

/-- Lookup modelling Python `company[k]`: `none` models a raised KeyError. -/
def get? : Record → String → Option String
  | [], _ => none
  | p :: rest, k => if p.1 == k then some p.2 else get? rest k

/-- Lookup with default, modelling Python `company.get(k, d)`. -/
def getD (r : Record) (k d : String) : String :=
  (get? r k).getD d

/-- Membership test, modelling Python `k in company`. -/
def hasKey : Record → String → Bool
  | [], _ => false
  | p :: rest, k => p.1 == k || hasKey rest k

/-- Every entry holding key `k` gets value `v`, in place. -/
def replaceVal : Record → String → String → Record
  | [], _, _ => []
  | p :: rest, k, v =>
    (if p.1 == k then (k, v) else p) :: replaceVal rest k v

/-- Setting one key, as Python dict update does: an existing key keeps its
position and gets the new value, a fresh key is appended at the end. -/
def setKey (r : Record) (k v : String) : Record :=
  if hasKey r k then replaceVal r k v
  else r ++ [(k, v)]

/-- Iterated key update, modelling `{**company, k1: v1, ..., kn: vn}`. -/
def setKeys : Record → List (String × String) → Record
  | r, [] => r
  | r, (k, v) :: rest => setKeys (setKey r k v) rest

/-- `keyVal r k v`: the key is present and every entry with that key holds `v`. -/
def keyVal (r : Record) (k v : String) : Prop :=
  hasKey r k = true ∧ ∀ p ∈ r, p.1 = k → p.2 = v

-- ---------------------------------------------------------------------------
-- Python string primitives (ASCII fragment, which covers all data the
-- scripts manipulate).
-- ---------------------------------------------------------------------------

/-- ASCII case folding of one character (`str.lower` on the ASCII range). -/
def pyLowerChar (c : Char) : Char :=
  if 65 ≤ c.toNat ∧ c.toNat ≤ 90 then Char.ofNat (c.toNat + 32) else c

/-- `str.lower()` on the ASCII range. -/
def pyLower (s : String) : String :=
  String.mk (s.data.map pyLowerChar)

/-- The characters removed by `str.strip()` / matched by the regex class \s. -/
def isPySpace (c : Char) : Bool :=
  c == ' ' || c == '\t' || c == '\n' || c == '\r' || c == '\x0b' || c == '\x0c'

/-- `str.strip()`: drop leading and trailing whitespace. -/
def pyStrip (s : String) : String :=
  String.mk (((s.data.dropWhile isPySpace).reverse.dropWhile isPySpace).reverse)

/-- Substring containment, modelling Python `needle in hay`. -/
def containsSub (pat : List Char) : List Char → Bool
  | [] => List.isPrefixOf pat []
  | c :: rest => List.isPrefixOf pat (c :: rest) || containsSub pat rest

def containsStr (needle hay : String) : Bool :=
  containsSub needle.data hay.data

/-- Fuel-driven core of `str.replace(pat, '')`: scan left to right, on a match
skip `pat.length` characters and emit nothing, otherwise keep the character.
The fuel is only a structural-recursion device; `removeAll` supplies enough. -/
def removeAllAux (pat : List Char) : Nat → List Char → List Char
  | 0, s => s
  | _ + 1, [] => []
  | fuel + 1, c :: cs =>
    if pat ≠ [] ∧ List.isPrefixOf pat (c :: cs) then
      removeAllAux pat fuel (List.drop (pat.length - 1) cs)
    else
      c :: removeAllAux pat fuel cs

/-- `s.replace(pat, '')` for a non-empty pattern. -/
def removeAll (pat s : List Char) : List Char :=
  removeAllAux pat s.length s

-- ---------------------------------------------------------------------------
-- main.py
-- ---------------------------------------------------------------------------

/-- The fixed strip list of `extract_domain` (main.py line 243), in order. -/
def stripList : List String := [" ", ",", ".", "inc", "llc", "the", "-"]

/-- main.py `extract_domain`: lowercase the name, delete each strip-list
token in order, append ".com". -/
def extract_domain (company_name : String) : String :=
  let d := stripList.foldl (fun acc rem => removeAll rem.data acc)
    (pyLower company_name).data
  String.mk (d ++ ".com".data)

/-- One override entry: the value type of REAL_FOUNDERS / REAL_FOUNDER_DATA. -/
structure FounderData where
  founder_first : String
  founder_last : String
  founder_email : String
  founder_linkedin : String
  website : String
  jobs : String
  funding_stage : String
  amount_raised : String
  date_raised : String

/-- An override table: company name to verified founder data. -/
abbrev Overrides := List (String × FounderData)

/-- Python `overrides[name]` / `name in overrides`, first binding wins. -/
def findData : Overrides → String → Option FounderData
  | [], _ => none
  | p :: rest, n => if p.1 == n then some p.2 else findData rest n

/-- The REAL data-quality marker written by the scripts. -/
def REAL : String := "✅ REAL"

/-- The PATTERN data-quality marker written by the scripts. -/
def PATTERN : String := "🤖 PATTERN"

/-- The key/value pairs written by the REAL branch of main.py
`enrich_company` (lines 254–266) and by update_with_real_founders.py
`update_company_with_real_data` (lines 64–76), in source order. -/
def realFields (d : FounderData) : List (String × String) :=
  [("founder_first_name", d.founder_first),
   ("founder_last_name", d.founder_last),
   ("founder_email", d.founder_email),
   ("founder_linkedin", d.founder_linkedin),
   ("website", d.website),
   ("job_openings", d.jobs),
   ("funding_stage", d.funding_stage),
   ("amount_raised", d.amount_raised),
   ("date_raised", d.date_raised),
   ("data_quality", REAL)]

/-- The keyword lists of main.py lines 273–277. -/
def aiWords : List String := ["ai", "ml", "machine learning", "llm"]

def devWords : List String := ["developer", "code", "software"]

def dataWords : List String := ["data", "analytics"]

/-- The job-opening choice of main.py lines 272–280, on the lowercased
description. -/
def pickJobs (descLower : String) : String :=
  if aiWords.any (fun w => containsStr w descLower) then
    "ML Engineering Intern, AI Research Intern"
  else if devWords.any (fun w => containsStr w descLower) then
    "Software Engineering Intern, Product Engineering Intern"
  else if dataWords.any (fun w => containsStr w descLower) then
    "Data Science Intern, Analytics Intern"
  else
    "Software Engineering Intern, Product Intern"

/-- The key/value pairs written by the PATTERN branch of main.py
`enrich_company` (lines 282–294), in source order. -/
def patternFields (domain jobs : String) : List (String × String) :=
  [("founder_first_name", "Team"),
   ("founder_last_name", ""),
   ("founder_email", "hello@" ++ domain),
   ("founder_linkedin", ""),
   ("website", domain),
   ("job_openings", jobs),
   ("funding_stage", "Seed"),
   ("amount_raised", "$1.5M"),
   ("date_raised", "Summer 2025"),
   ("data_quality", PATTERN)]

/-- main.py `enrich_company`, parameterised by the override table (the script
uses the source-embedded REAL_FOUNDERS literal).  `company['Company_Name']`
and `company['company_description']` are raising lookups, so a missing key
makes the whole call `none` (a KeyError in Python). -/
def enrich_company (o : Overrides) (company : Record) : Option Record :=
  match get? company "Company_Name" with
  | none => none
  | some company_name =>
    match findData o company_name with
    | some data => some (setKeys company (realFields data))
    | none =>
      match get? company "company_description" with
      | none => none
      | some desc =>
        let domain := extract_domain company_name
        let jobs := pickJobs (pyLower desc)
        some (setKeys company (patternFields domain jobs))

/-- The record produced by a successful `enrich_company` call. -/
def enrichOut (o : Overrides) (company : Record) : Record :=
  (enrich_company o company).getD []

/-- The ten field names written by enrichment. -/
def enrichedFields : List String :=
  ["founder_first_name", "founder_last_name", "founder_email",
   "founder_linkedin", "website", "job_openings", "funding_stage",
   "amount_raised", "date_raised", "data_quality"]

-- ---------------------------------------------------------------------------
-- update_with_real_founders.py / batch_extract_founders.py
-- ---------------------------------------------------------------------------

/-- update_with_real_founders.py `is_pattern_data` (lines 48–60): the
re-classification predicate; `true` is the spec's PATTERN, `false` REAL. -/
def is_pattern_data (company : Record) : Bool :=
  let founder_first := pyStrip (getD company "founder_first_name" "")
  let founder_email := pyStrip (getD company "founder_email" "")
  if founder_first == "Team" || founder_first == "" then true
  else if List.isPrefixOf "hello@".data founder_email.data then true
  else if pyStrip (getD company "founder_linkedin" "") == "" then true
  else false

/-- batch_extract_founders.py `is_pattern_data` (lines 191–203), a verbatim
copy of the predicate in update_with_real_founders.py. -/
def is_pattern_data_batch (company : Record) : Bool :=
  let founder_first := pyStrip (getD company "founder_first_name" "")
  let founder_email := pyStrip (getD company "founder_email" "")
  if founder_first == "Team" || founder_first == "" then true
  else if List.isPrefixOf "hello@".data founder_email.data then true
  else if pyStrip (getD company "founder_linkedin" "") == "" then true
  else false

/-- The literal predicate of the claim/spec sentence, stated without the
`.strip()` calls the code performs: founder_first_name empty or "Team",
or founder_email starting with "hello@", or founder_linkedin empty. -/
def classifyClaimLiteral (company : Record) : Bool :=
  getD company "founder_first_name" "" == "Team"
    || getD company "founder_first_name" "" == ""
    || List.isPrefixOf "hello@".data (getD company "founder_email" "").data
    || getD company "founder_linkedin" "" == ""

/-- update_with_real_founders.py `update_company_with_real_data`
(lines 62–76): field-by-field overwrite with the override entry. -/
def update_company_with_real_data (company : Record) (d : FounderData) : Record :=
  setKeys company (realFields d)

/-- The per-record merge step of update_with_real_founders.py `main`
(lines 96–103): if the company name is an override key and the record is
pattern data, overwrite it with the override, else leave it unchanged.
The spec calls this operation `merge_update`. -/
def merge_update (o : Overrides) (company : Record) : Record :=
  let company_name := getD company "Company_Name" ""
  match findData o company_name with
  | some real_data =>
    if is_pattern_data company then update_company_with_real_data company real_data
    else company
  | none => company

/-- An override entry none of whose fields re-classify as pattern data:
stripped first name neither empty nor "Team", stripped email not starting
with "hello@", stripped LinkedIn non-empty.  Every entry of the repository's
override tables satisfies this. -/
def cleanData (d : FounderData) : Bool :=
  !(pyStrip d.founder_first == "Team")
    && !(pyStrip d.founder_first == "")
    && !(List.isPrefixOf "hello@".data (pyStrip d.founder_email).data)
    && !(pyStrip d.founder_linkedin == "")

def cleanOverrides (o : Overrides) : Bool :=
  o.all (fun p => cleanData p.2)

-- ---------------------------------------------------------------------------
-- find_funding_rounds.py / find_actual_funding.py: extract_company_slug
-- ---------------------------------------------------------------------------

/-- Scan of `re.search(r'/companies/([^/]+)', url)`: at each start position,
try to match the literal "/companies/" followed by a maximal non-empty run
of non-'/' characters (the capture group). -/
def extractSlugAux : List Char → Option (List Char)
  | [] => none
  | c :: rest =>
    if List.isPrefixOf "/companies/".data (c :: rest) then
      let after := List.drop "/companies/".data.length (c :: rest)
      let run := after.takeWhile (fun a => !(a == '/'))
      if run.isEmpty then extractSlugAux rest else some run
    else
      extractSlugAux rest

/-- find_funding_rounds.py / find_actual_funding.py `extract_company_slug`:
`None` for a falsy (empty) link, else the first capture of the regex
`/companies/([^/]+)`, or `None` when there is no match. -/
def extract_company_slug (yc_link : String) : Option String :=
  if yc_link == "" then none
  else (extractSlugAux yc_link.data).map (fun l => String.mk l)

-- ---------------------------------------------------------------------------
-- find_actual_funding.py: parse_funding_info
--
-- The three concrete regular expressions of lines 22-26 are compiled here
-- into explicit matchers.  All character classes that separate consecutive
-- regex pieces are disjoint ('\s+' never borders another whitespace-able
-- piece, '[\d.]+' and '[MBK]?' and the literals share no characters, and
-- no alternation branch is a prefix of what may legally follow it), so the
-- greedy left-to-right matchers below agree with Python's backtracking
-- search on these patterns.  re.IGNORECASE makes every literal and the
-- classes [MBK] and [A-Z] case-insensitive; capture groups return the
-- original (unfolded) text slice.
-- ---------------------------------------------------------------------------

/-- Case-insensitive character comparison (re.IGNORECASE, ASCII). -/
def lowEq (a b : Char) : Bool :=
  pyLowerChar a == pyLowerChar b

/-- Match a literal case-insensitively; returns the consumed original
characters and the rest. -/
def eatLitCI : List Char → List Char → Option (List Char × List Char)
  | [], s => some ([], s)
  | _ :: _, [] => none
  | l :: ls, c :: cs =>
    if lowEq l c then (eatLitCI ls cs).map (fun p => (c :: p.1, p.2)) else none

/-- Match `\s+` (greedy, at least one whitespace character). -/
def eatWs1 (s : List Char) : Option (List Char × List Char) :=
  let w := s.takeWhile isPySpace
  if w.isEmpty then none else some (w, s.drop w.length)

def isDigitDot (c : Char) : Bool :=
  c.isDigit || c == '.'

/-- Match the amount group `\$[\d.]+[MBK]?` (with [MBK] case-insensitive). -/
def eatAmount (s : List Char) : Option (List Char × List Char) :=
  match s with
  | '$' :: rest =>
    let ds := rest.takeWhile isDigitDot
    if ds.isEmpty then none
    else
      match rest.drop ds.length with
      | c :: cs =>
        if pyLowerChar c == 'm' || pyLowerChar c == 'b' || pyLowerChar c == 'k' then
          some ('$' :: (ds ++ [c]), cs)
        else some ('$' :: ds, c :: cs)
      | [] => some ('$' :: ds, [])
  | _ => none

/-- Match the alternation branch `Series\s+[A-Z]` ([A-Z] case-insensitive). -/
def eatSeries (s : List Char) : Option (List Char × List Char) :=
  match eatLitCI "Series".data s with
  | none => none
  | some (a, s1) =>
    match eatWs1 s1 with
    | none => none
    | some (w, s2) =>
      match s2 with
      | c :: cs => if c.isAlpha then some (a ++ w ++ [c], cs) else none
      | [] => none

/-- The round alternation `(seed|Series\s+[A-Z]|pre-seed)` of patterns 2, 3. -/
def eatRound3 (s : List Char) : Option (List Char × List Char) :=
  match eatLitCI "seed".data s with
  | some p => some p
  | none =>
    match eatSeries s with
    | some p => some p
    | none => eatLitCI "pre-seed".data s

/-- The round alternation of pattern 1, whose source has the `Series\s+[A-Z]`
branch duplicated: `(seed|Series\s+[A-Z]|pre-seed|Series\s+[A-Z])`. -/
def eatRound4 (s : List Char) : Option (List Char × List Char) :=
  match eatLitCI "seed".data s with
  | some p => some p
  | none =>
    match eatSeries s with
    | some p => some p
    | none =>
      match eatLitCI "pre-seed".data s with
      | some p => some p
      | none => eatSeries s

/-- Match an optional word plus whitespace, `(?:word\s+)?` (greedy). -/
def eatOptWord (w s : List Char) : List Char :=
  match eatLitCI w s with
  | none => s
  | some (_, s1) =>
    match eatWs1 s1 with
    | none => s
    | some (_, s2) => s2

/-- Pattern 1 at a fixed position:
`raised\s+(\$[\d.]+[MBK]?)\s+(?:in\s+)?(?:a\s+)?(seed|Series\s+[A-Z]|pre-seed|Series\s+[A-Z])\s+round`. -/
def matchP1At (s : List Char) : Option (String × String) := do
  let (_, s) ← eatLitCI "raised".data s
  let (_, s) ← eatWs1 s
  let (g1, s) ← eatAmount s
  let (_, s) ← eatWs1 s
  let s := eatOptWord "in".data s
  let s := eatOptWord "a".data s
  let (g2, s) ← eatRound4 s
  let (_, s) ← eatWs1 s
  let (_, _) ← eatLitCI "round".data s
  return (String.mk g1, String.mk g2)

/-- Pattern 2 at a fixed position:
`(seed|Series\s+[A-Z]|pre-seed)\s+round\s+of\s+(\$[\d.]+[MBK]?)`. -/
def matchP2At (s : List Char) : Option (String × String) := do
  let (g1, s) ← eatRound3 s
  let (_, s) ← eatWs1 s
  let (_, s) ← eatLitCI "round".data s
  let (_, s) ← eatWs1 s
  let (_, s) ← eatLitCI "of".data s
  let (_, s) ← eatWs1 s
  let (g2, _) ← eatAmount s
  return (String.mk g1, String.mk g2)

/-- Pattern 3 at a fixed position:
`(\$[\d.]+[MBK]?)\s+(?:funding|raised)\s+(?:in\s+)?(seed|Series\s+[A-Z]|pre-seed)`. -/
def matchP3At (s : List Char) : Option (String × String) := do
  let (g1, s) ← eatAmount s
  let (_, s) ← eatWs1 s
  let s ← match eatLitCI "funding".data s with
    | some (_, r) => some r
    | none => (eatLitCI "raised".data s).map (fun p => p.2)
  let (_, s) ← eatWs1 s
  let s := eatOptWord "in".data s
  let (g2, _) ← eatRound3 s
  return (String.mk g1, String.mk g2)

/-- `re.search`: try the matcher at every start position, leftmost wins. -/
def searchP (m : List Char → Option (String × String)) : List Char → Option (String × String)
  | [] => m []
  | c :: cs =>
    match m (c :: cs) with
    | some g => some g
    | none => searchP m cs

/-- The `for pattern in patterns: ... break` loop of `parse_funding_info`:
the first pattern that matches anywhere wins; later patterns are not
consulted. -/
def tryPatterns (text : List Char) : Option (String × String) :=
  match searchP matchP1At text with
  | some g => some g
  | none =>
    match searchP matchP2At text with
    | some g => some g
    | none => searchP matchP3At text

/-- find_actual_funding.py `parse_funding_info` (lines 20–44): returns the
pair (funding_round, funding_amount).  Each pattern has exactly two capture
groups, so the source's `len(match.groups()) == 2` test always holds; the
group holding the amount is recognised by `'$' in match.group(1)`.  The
`company_name` argument is unused, as in the source. -/
def parse_funding_info (search_result_text company_name : String) :
    Option String × Option String :=
  match tryPatterns search_result_text.data with
  | none => (none, none)
  | some (g1, g2) =>
    if containsStr "$" g1 then (some g2, some g1)
    else (some g1, some g2)

-- ---------------------------------------------------------------------------
-- Lemmas about the record operations
-- ---------------------------------------------------------------------------


theorem get?_eq_none_of_hasKey_false {r : Record} {k : String}
    (h : hasKey r k = false) : get? r k = none := by
  induction r with
  | nil => rfl
  | cons p rest ih =>
    simp only [hasKey, Bool.or_eq_false_iff] at h
    simp only [get?, h.1, if_false]
    exact ih h.2

theorem get?_append (r₁ r₂ : Record) (k : String) :
    get? (r₁ ++ r₂) k =
      match get? r₁ k with
      | some v => some v
      | none => get? r₂ k := by
  induction r₁ with
  | nil => rfl
  | cons p rest ih =>
    cases hp : p.1 == k
    · simp [get?, hp, ih]
    · simp [get?, hp]

theorem hasKey_append (r₁ r₂ : Record) (k : String) :
    hasKey (r₁ ++ r₂) k = (hasKey r₁ k || hasKey r₂ k) := by
  induction r₁ with
  | nil => simp [hasKey]
  | cons p rest ih =>
    cases hp : p.1 == k <;> simp [hasKey, hp, ih]

theorem get?_replaceVal_self {r : Record} (k v : String)
    (h : hasKey r k = true) : get? (replaceVal r k v) k = some v := by
  induction r with
  | nil => simp [hasKey] at h
  | cons p rest ih =>
    cases hp : p.1 == k
    · simp only [hasKey, hp, Bool.false_or] at h
      simp [replaceVal, hp, get?, ih h]
    · simp [replaceVal, hp, get?]

theorem get?_replaceVal_ne (r : Record) {k k' : String} (v : String)
    (h : k' ≠ k) : get? (replaceVal r k v) k' = get? r k' := by
  have hkk : (k == k') = false := by
    simpa using (Ne.symm h)
  induction r with
  | nil => rfl
  | cons p rest ih =>
    cases hp : p.1 == k
    · simp [replaceVal, hp, get?, ih]
    · have hpk : p.1 = k := by simpa using hp
      have hpk' : (p.1 == k') = false := by
        simpa [hpk] using (Ne.symm h)
      simp [replaceVal, hp, get?, hkk, hpk', ih]

theorem hasKey_replaceVal (r : Record) (k v k' : String) :
    hasKey (replaceVal r k v) k' = hasKey r k' := by
  induction r with
  | nil => rfl
  | cons p rest ih =>
    cases hp : p.1 == k
    · simp [replaceVal, hp, hasKey, ih]
    · have hpk : p.1 = k := by simpa using hp
      simp [replaceVal, hp, hasKey, ih, hpk]

theorem replaceVal_eq_of {r : Record} {k v : String}
    (h : ∀ p ∈ r, p.1 = k → p.2 = v) : replaceVal r k v = r := by
  induction r with
  | nil => rfl
  | cons p rest ih =>
    obtain ⟨p1, p2⟩ := p
    have hrest : replaceVal rest k v = rest :=
      ih (fun q hq => h q (by simp [hq]))
    cases hp : p1 == k
    · simp [replaceVal, hp, hrest]
    · have hpk : p1 = k := by simpa using hp
      have hpv : p2 = v := h (p1, p2) (by simp) hpk
      simp [replaceVal, hp, hrest, hpk, hpv]

theorem get?_setKey_self (r : Record) (k v : String) :
    get? (setKey r k v) k = some v := by
  unfold setKey
  cases hk : hasKey r k
  · rw [if_neg (by simp [hk]), get?_append, get?_eq_none_of_hasKey_false hk]
    simp [get?]
  · rw [if_pos rfl, get?_replaceVal_self k v hk]

theorem get?_setKey_ne (r : Record) {k k' : String} (v : String)
    (h : k' ≠ k) : get? (setKey r k v) k' = get? r k' := by
  unfold setKey
  cases hk : hasKey r k
  · have hkk : (k == k') = false := by simpa using (Ne.symm h)
    rw [if_neg (by simp [hk]), get?_append]
    cases hg : get? r k' <;> simp [get?, hkk]
  · rw [if_pos rfl, get?_replaceVal_ne r v h]

theorem hasKey_setKey (r : Record) (k v k' : String) :
    hasKey (setKey r k v) k' = (hasKey r k' || k == k') := by
  unfold setKey
  cases hk : hasKey r k
  · rw [if_neg (by simp [hk]), hasKey_append]
    simp [hasKey]
  · rw [if_pos rfl, hasKey_replaceVal]
    cases hkk : k == k'
    · simp
    · have : k = k' := by simpa using hkk
      simp [← this, hk]

theorem hasKey_setKeys_of (kvs : List (String × String)) {r : Record} {k : String}
    (h : hasKey r k = true) : hasKey (setKeys r kvs) k = true := by
  induction kvs generalizing r with
  | nil => exact h
  | cons kv rest ih =>
    cases kv with
    | mk k0 v0 => exact ih (by simp [hasKey_setKey, h])

theorem get?_setKeys_ne (kvs : List (String × String)) (r : Record) {k : String}
    (h : ∀ q ∈ kvs, q.1 ≠ k) : get? (setKeys r kvs) k = get? r k := by
  induction kvs generalizing r with
  | nil => rfl
  | cons kv rest ih =>
    cases kv with
    | mk k0 v0 =>
      have hne : k ≠ k0 := fun hc => (h (k0, v0) (by simp)) (by simp [hc])
      simp only [setKeys]
      rw [ih _ (fun q hq => h q (by simp [hq])), get?_setKey_ne _ _ hne]

theorem mem_replaceVal {r : Record} {k v : String} {p : String × String}
    (hp : p ∈ replaceVal r k v) : p = (k, v) ∨ (p ∈ r ∧ (p.1 == k) = false) := by
  induction r with
  | nil => simp [replaceVal] at hp
  | cons q rest ih =>
    cases hq : q.1 == k
    · simp only [replaceVal, hq, if_false, List.mem_cons] at hp
      rcases hp with hp | hp
      · exact Or.inr ⟨by simp [hp], by simpa [hp] using hq⟩
      · rcases ih hp with h | h
        · exact Or.inl h
        · exact Or.inr ⟨by simp [h.1], h.2⟩
    · simp only [replaceVal, hq, if_true, List.mem_cons] at hp
      rcases hp with hp | hp
      · exact Or.inl hp
      · rcases ih hp with h | h
        · exact Or.inl h
        · exact Or.inr ⟨by simp [h.1], h.2⟩

theorem keyVal_setKey_self (r : Record) (k v : String) :
    keyVal (setKey r k v) k v := by
  refine ⟨by simp [hasKey_setKey], ?_⟩
  intro p hp hpk
  unfold setKey at hp
  cases hk : hasKey r k
  · rw [if_neg (by simp [hk])] at hp
    rw [List.mem_append] at hp
    rcases hp with hp | hp
    · exfalso
      have : hasKey r k = true := by
        clear hk
        induction r with
        | nil => simp at hp
        | cons q rest ih =>
          rcases List.mem_cons.mp hp with h | h
          · simp [hasKey, ← h, hpk]
          · simp [hasKey, ih h]
      simp [this] at hk
    · simp at hp
      simp [hp]
  · rw [if_pos hk] at hp
    rcases mem_replaceVal hp with h | h
    · rw [h]
    · exact absurd (by simpa using h.2 : p.1 ≠ k) (by simp [hpk])

theorem keyVal_setKey_of_ne {r : Record} {k v : String} (k' v' : String)
    (h : keyVal r k v) (hne : k ≠ k') : keyVal (setKey r k' v') k v := by
  obtain ⟨h1, h2⟩ := h
  refine ⟨by simp [hasKey_setKey, h1], ?_⟩
  intro p hp hpk
  unfold setKey at hp
  cases hk : hasKey r k'
  · rw [if_neg (by simp [hk])] at hp
    rw [List.mem_append] at hp
    rcases hp with hp | hp
    · exact h2 p hp hpk
    · simp at hp
      rw [hp] at hpk
      simp at hpk
      exact absurd hpk.symm hne
  · rw [if_pos hk] at hp
    rcases mem_replaceVal hp with hh | hh
    · rw [hh] at hpk
      exact absurd hpk.symm hne
    · exact h2 p hh.1 hpk

theorem setKey_eq_of_keyVal {r : Record} {k v : String}
    (h : keyVal r k v) : setKey r k v = r := by
  obtain ⟨h1, h2⟩ := h
  unfold setKey
  rw [h1, if_pos rfl]
  exact replaceVal_eq_of h2

theorem get?_of_keyVal {r : Record} {k v : String}
    (h : keyVal r k v) : get? r k = some v := by
  obtain ⟨h1, h2⟩ := h
  induction r with
  | nil => simp [hasKey] at h1
  | cons p rest ih =>
    cases hp : p.1 == k
    · simp only [hasKey, hp, Bool.false_or] at h1
      simp only [get?, hp, if_false]
      exact ih h1 (fun q hq => h2 q (by simp [hq]))
    · have hpk : p.1 = k := by simpa using hp
      simp [get?, hp, h2 p (by simp) hpk]

theorem keyVal_setKeys_of_notMem (kvs : List (String × String)) {r : Record}
    {k v : String} (h : keyVal r k v) (hk : ∀ q ∈ kvs, q.1 ≠ k) :
    keyVal (setKeys r kvs) k v := by
  induction kvs generalizing r with
  | nil => exact h
  | cons kv rest ih =>
    cases kv with
    | mk k0 v0 =>
      have hne : k ≠ k0 := fun hc => (hk (k0, v0) (by simp)) (by simp [hc])
      exact ih (keyVal_setKey_of_ne k0 v0 h hne) (fun q hq => hk q (by simp [hq]))

theorem keyVal_setKeys_self (kvs : List (String × String)) (r : Record)
    (hnd : List.Pairwise (fun a b : String × String => a.1 ≠ b.1) kvs) :
    ∀ q ∈ kvs, keyVal (setKeys r kvs) q.1 q.2 := by
  induction kvs generalizing r with
  | nil => intro q hq; simp at hq
  | cons kv rest ih =>
    cases kv with
    | mk k0 v0 =>
      intro q hq
      rcases List.mem_cons.mp hq with hq | hq
      · subst hq
        simp only [setKeys]
        exact keyVal_setKeys_of_notMem rest (keyVal_setKey_self r k0 v0)
          (fun p hp => ((List.pairwise_cons.mp hnd).1 p hp).symm)
      · exact ih (setKey r k0 v0) (List.pairwise_cons.mp hnd).2 q hq

theorem setKeys_eq_of_keyVal {kvs : List (String × String)} {r : Record}
    (h : ∀ q ∈ kvs, keyVal r q.1 q.2) : setKeys r kvs = r := by
  induction kvs with
  | nil => rfl
  | cons kv rest ih =>
    cases kv with
    | mk k0 v0 =>
      simp only [setKeys, setKey_eq_of_keyVal (h (k0, v0) (by simp))]
      exact ih (fun q hq => h q (by simp [hq]))

theorem setKeys_idem (kvs : List (String × String)) (r : Record)
    (hnd : List.Pairwise (fun a b : String × String => a.1 ≠ b.1) kvs) :
    setKeys (setKeys r kvs) kvs = setKeys r kvs :=
  setKeys_eq_of_keyVal (keyVal_setKeys_self kvs r hnd)

-- ---------------------------------------------------------------------------
-- Facts about the enriched field lists
-- ---------------------------------------------------------------------------

theorem realFields_keys (d : FounderData) :
    (realFields d).map (fun p => p.1) = enrichedFields := rfl

theorem patternFields_keys (domain jobs : String) :
    (patternFields domain jobs).map (fun p => p.1) = enrichedFields := rfl

theorem enrichedFields_nodup : enrichedFields.Nodup := by decide

theorem realFields_pairwise (d : FounderData) :
    List.Pairwise (fun a b : String × String => a.1 ≠ b.1) (realFields d) := by
  have h : List.Pairwise (fun a b : String => a ≠ b) enrichedFields :=
    enrichedFields_nodup
  rw [← realFields_keys d] at h
  exact List.pairwise_map.mp h

theorem patternFields_pairwise (domain jobs : String) :
    List.Pairwise (fun a b : String × String => a.1 ≠ b.1)
      (patternFields domain jobs) := by
  have h : List.Pairwise (fun a b : String => a ≠ b) enrichedFields :=
    enrichedFields_nodup
  rw [← patternFields_keys domain jobs] at h
  exact List.pairwise_map.mp h

theorem realFields_key_mem (d : FounderData) {q : String × String}
    (hq : q ∈ realFields d) : q.1 ∈ enrichedFields := by
  rw [← realFields_keys d]
  exact List.mem_map_of_mem _ hq

theorem patternFields_key_mem (domain jobs : String) {q : String × String}
    (hq : q ∈ patternFields domain jobs) : q.1 ∈ enrichedFields := by
  rw [← patternFields_keys domain jobs]
  exact List.mem_map_of_mem _ hq

theorem companyName_notMem_enrichedFields : "Company_Name" ∉ enrichedFields := by
  decide

/-- Value of an enriched field after the REAL overwrite. -/
theorem get?_realFields {r : Record} {d : FounderData} {k v : String}
    (hkv : (k, v) ∈ realFields d) :
    get? (setKeys r (realFields d)) k = some v :=
  get?_of_keyVal (keyVal_setKeys_self _ r (realFields_pairwise d) (k, v) hkv)

/-- Value of an enriched field after the PATTERN overwrite. -/
theorem get?_patternFields {r : Record} {domain jobs k v : String}
    (hkv : (k, v) ∈ patternFields domain jobs) :
    get? (setKeys r (patternFields domain jobs)) k = some v :=
  get?_of_keyVal
    (keyVal_setKeys_self _ r (patternFields_pairwise domain jobs) (k, v) hkv)

/-- A record just overwritten with a clean override entry re-classifies REAL. -/
theorem is_pattern_data_after_real {r : Record} {d : FounderData}
    (hc : cleanData d = true) :
    is_pattern_data (setKeys r (realFields d)) = false := by
  have h1 : get? (setKeys r (realFields d)) "founder_first_name" = some d.founder_first :=
    get?_realFields (by simp [realFields])
  have h2 : get? (setKeys r (realFields d)) "founder_email" = some d.founder_email :=
    get?_realFields (by simp [realFields])
  have h3 : get? (setKeys r (realFields d)) "founder_linkedin" = some d.founder_linkedin :=
    get?_realFields (by simp [realFields])
  simp only [cleanData, Bool.and_eq_true, Bool.not_eq_true'] at hc
  obtain ⟨⟨⟨hA, hB⟩, hC⟩, hD⟩ := hc
  unfold is_pattern_data
  simp only [getD, h1, h2, h3, Option.getD_some, hA, hB, hC, hD]
  simp

/-- A record just overwritten by the PATTERN branch re-classifies PATTERN. -/
theorem is_pattern_data_after_pattern {r : Record} {domain jobs : String} :
    is_pattern_data (setKeys r (patternFields domain jobs)) = true := by
  have h1 : get? (setKeys r (patternFields domain jobs)) "founder_first_name" = some "Team" :=
    get?_patternFields (by simp [patternFields])
  have hstrip : pyStrip "Team" = "Team" := rfl
  unfold is_pattern_data
  simp only [getD, h1, Option.getD_some, hstrip]
  rw [if_pos (by decide)]

-- ---------------------------------------------------------------------------
-- Case equations for merge_update
-- ---------------------------------------------------------------------------

theorem merge_update_eq_of_none (o : Overrides) (r : Record)
    (hf : findData o (getD r "Company_Name" "") = none) :
    merge_update o r = r := by
  simp only [merge_update]
  rw [hf]

theorem merge_update_eq_of_not_pattern (o : Overrides) (r : Record)
    (d : FounderData) (hf : findData o (getD r "Company_Name" "") = some d)
    (hp : is_pattern_data r = false) :
    merge_update o r = r := by
  simp only [merge_update]
  rw [hf, hp]
  simp

theorem merge_update_eq_of_pattern (o : Overrides) (r : Record)
    (d : FounderData) (hf : findData o (getD r "Company_Name" "") = some d)
    (hp : is_pattern_data r = true) :
    merge_update o r = update_company_with_real_data r d := by
  simp only [merge_update]
  rw [hf, hp]
  simp

theorem getD_update_name (r : Record) (d : FounderData) :
    getD (update_company_with_real_data r d) "Company_Name" ""
      = getD r "Company_Name" "" := by
  unfold update_company_with_real_data getD
  rw [get?_setKeys_ne]
  intro q hq hc
  exact companyName_notMem_enrichedFields (hc ▸ realFields_key_mem d hq)

-- ---------------------------------------------------------------------------
-- Claim theorems
-- ---------------------------------------------------------------------------

/-- Claim C4 (confirmed): merge_update is idempotent: applying it twice with
the same override table yields the same record as applying it once, for every
record and every override table. -/
theorem merge_update_idem (o : Overrides) (r : Record) :
    merge_update o (merge_update o r) = merge_update o r := by
  cases hf : findData o (getD r "Company_Name" "") with
  | none =>
    rw [merge_update_eq_of_none o r hf, merge_update_eq_of_none o r hf]
  | some d =>
    cases hp : is_pattern_data r with
    | false =>
      rw [merge_update_eq_of_not_pattern o r d hf hp,
        merge_update_eq_of_not_pattern o r d hf hp]
    | true =>
      rw [merge_update_eq_of_pattern o r d hf hp]
      have hname := getD_update_name r d
      cases hp2 : is_pattern_data (update_company_with_real_data r d) with
      | false =>
        exact merge_update_eq_of_not_pattern o _ d (by rw [hname, hf]) hp2
      | true =>
        rw [merge_update_eq_of_pattern o _ d (by rw [hname, hf]) hp2]
        unfold update_company_with_real_data
        exact setKeys_idem _ _ (realFields_pairwise d)

/-- Claim C9 (confirmed): merge_update leaves a record entirely unchanged
unless the record classifies as PATTERN and its Company_Name is an override
key; in particular every REAL-classified record passes through unchanged. -/
theorem merge_update_unchanged (o : Overrides) (r : Record)
    (h : ¬(is_pattern_data r = true
        ∧ (findData o (getD r "Company_Name" "")).isSome = true)) :
    merge_update o r = r := by
  cases hf : findData o (getD r "Company_Name" "") with
  | none => exact merge_update_eq_of_none o r hf
  | some d =>
    cases hp : is_pattern_data r with
    | false => exact merge_update_eq_of_not_pattern o r d hf hp
    | true => exact absurd ⟨hp, by rw [hf]; rfl⟩ h

/-- Witness for C9: a concrete REAL-classified record, whose company name is
even an override key, passes through merge_update unchanged. -/
theorem merge_update_unchanged_witness :
    merge_update
      [("X", ⟨"Ann", "Lee", "ann@x.io", "linkedin.com/in/ann", "x.io",
        "Engineer", "Seed", "$2M", "Summer 2025"⟩)]
      [("Company_Name", "X"), ("founder_first_name", "Ann"),
       ("founder_email", "ann@x.io"), ("founder_linkedin", "linkedin.com/in/ann")]
    = [("Company_Name", "X"), ("founder_first_name", "Ann"),
       ("founder_email", "ann@x.io"), ("founder_linkedin", "linkedin.com/in/ann")] :=
  merge_update_unchanged _ _ (by decide)

/-- Claim C5 (corrected), counterexample: on "Nox Metals, Inc." the code does
not return the claimed "noxmetalsinc.com" (after the '.' pass merges "inc"
into the tail, the 'inc' pass strips it). -/
theorem extract_domain_nox_claim_false :
    extract_domain "Nox Metals, Inc." ≠ "noxmetalsinc.com" := by
  decide

/-- Claim C5 (corrected), amended: lowercasing and applying the strip list
{" ", ",", ".", "inc", "llc", "the", "-"} in order to "Nox Metals, Inc."
yields "noxmetals" — the trailing "inc" is also deleted — so extract_domain
returns "noxmetals.com". -/
theorem extract_domain_nox : extract_domain "Nox Metals, Inc." = "noxmetals.com" := by
  decide

/-- Claim C7 (confirmed): extract_company_slug returns the path segment that
follows "/companies/" ("blue" on the YC profile URL), and none on the empty
string and on a URL in which the pattern does not match. -/
theorem extract_company_slug_spec :
    extract_company_slug "https://www.ycombinator.com/companies/blue" = some "blue"
    ∧ extract_company_slug "" = none
    ∧ extract_company_slug "https://www.ycombinator.com/about" = none := by
  refine ⟨?_, ?_, ?_⟩ <;> decide

theorem cleanData_of_findData {o : Overrides} {n : String} {d : FounderData}
    (hc : cleanOverrides o = true) (h : findData o n = some d) :
    cleanData d = true := by
  induction o with
  | nil => simp [findData] at h
  | cons p rest ih =>
    simp only [cleanOverrides, List.all_cons, Bool.and_eq_true] at hc
    cases hp : p.1 == n
    · rw [findData, if_neg (by simp [hp])] at h
      exact ih (by simpa [cleanOverrides] using hc.2) h
    · rw [findData, if_pos (by simp_all)] at h
      cases h
      exact hc.1

/-- Claim C2 (corrected), counterexample: a record whose founder_email has
leading whitespace before "hello@" classifies PATTERN under the code — the
code strips each field before testing — while the claim's literal predicate
(no stripping) classifies it REAL, so the claimed "if and only if" fails. -/
theorem is_pattern_data_claim_false :
    is_pattern_data
      [("founder_first_name", "X"), ("founder_email", "  hello@a.com"),
       ("founder_linkedin", "l")] = true
    ∧ classifyClaimLiteral
      [("founder_first_name", "X"), ("founder_email", "  hello@a.com"),
       ("founder_linkedin", "l")] = false := by
  exact ⟨by decide, by decide⟩

/-- Claim C2 (corrected), amended: classify returns PATTERN iff the
whitespace-stripped founder_first_name is empty or equals the sentinel
"Team", or the stripped founder_email starts with "hello@", or the stripped
founder_linkedin is empty; and the batch_extract_founders.py copy of the
predicate computes the same function, so this is the sole rule. -/
theorem is_pattern_data_spec (r : Record) :
    (is_pattern_data r = true ↔
      (pyStrip (getD r "founder_first_name" "") = ""
        ∨ pyStrip (getD r "founder_first_name" "") = "Team"
        ∨ List.isPrefixOf "hello@".data
            (pyStrip (getD r "founder_email" "")).data = true
        ∨ pyStrip (getD r "founder_linkedin" "") = ""))
    ∧ is_pattern_data_batch r = is_pattern_data r := by
  refine ⟨?_, rfl⟩
  unfold is_pattern_data
  cases h1 : pyStrip (getD r "founder_first_name" "") == "Team" <;>
    cases h2 : pyStrip (getD r "founder_first_name" "") == "" <;>
      cases h3 : List.isPrefixOf "hello@".data
          (pyStrip (getD r "founder_email" "")).data <;>
        cases h4 : pyStrip (getD r "founder_linkedin" "") == "" <;>
          simp_all

/-- Claim C3 (corrected), counterexample: with an override table whose entry
re-classifies as pattern data (founder_first "Team") the claimed equivalence
fails: the company name is an override key, enrich_company succeeds on the
REAL branch, yet the enriched record classifies PATTERN. -/
theorem classify_enrich_claim_false :
    (findData [("A", ⟨"Team", "", "a@a.com", "", "a.com", "J", "Seed",
        "$1M", "S"⟩)] "A").isSome = true
    ∧ (enrich_company [("A", ⟨"Team", "", "a@a.com", "", "a.com", "J", "Seed",
        "$1M", "S"⟩)] [("Company_Name", "A"), ("company_description", "d")]).isSome
        = true
    ∧ is_pattern_data (enrichOut
        [("A", ⟨"Team", "", "a@a.com", "", "a.com", "J", "Seed", "$1M", "S"⟩)]
        [("Company_Name", "A"), ("company_description", "d")]) = true := by
  exact ⟨by decide, by decide, by decide⟩

/-- Claim C3 (corrected), amended: provided every override entry is clean —
its stripped first name neither empty nor "Team", its stripped email not
starting with "hello@", its stripped LinkedIn non-empty, as holds for every
entry of the repository's override tables — the record produced by a
successful enrich_company call classifies REAL iff the record's Company_Name
is a key of the override table. -/
theorem classify_enrich (o : Overrides) (r : Record) (name : String)
    (hc : cleanOverrides o = true)
    (hn : get? r "Company_Name" = some name)
    (hs : (enrich_company o r).isSome = true) :
    is_pattern_data (enrichOut o r) = false ↔ (findData o name).isSome = true := by
  cases hfd : findData o name with
  | some d =>
    have hout : enrichOut o r = setKeys r (realFields d) := by
      unfold enrichOut enrich_company
      simp only [hn, hfd, Option.getD_some]
    rw [hout]
    simp [is_pattern_data_after_real (cleanData_of_findData hc hfd)]
  | none =>
    cases hdesc : get? r "company_description" with
    | none =>
      exfalso
      unfold enrich_company at hs
      simp only [hn, hfd, hdesc] at hs
      simp at hs
    | some desc =>
      have hout : enrichOut o r = setKeys r
          (patternFields (extract_domain name) (pickJobs (pyLower desc))) := by
        unfold enrichOut enrich_company
        simp only [hn, hfd, hdesc, Option.getD_some]
      rw [hout]
      simp [is_pattern_data_after_pattern]

/-- Witness for C3: on a concrete clean override table and a record whose
name is an override key, the enriched record classifies REAL. -/
theorem classify_enrich_witness :
    is_pattern_data (enrichOut
      [("X", ⟨"Ann", "Lee", "ann@x.io", "linkedin.com/in/ann", "x.io",
        "Engineer", "Seed", "$2M", "Summer 2025"⟩)]
      [("Company_Name", "X"), ("company_description", "d")]) = false
    ∧ (findData
      [("X", ⟨"Ann", "Lee", "ann@x.io", "linkedin.com/in/ann", "x.io",
        "Engineer", "Seed", "$2M", "Summer 2025"⟩)] "X").isSome = true :=
  ⟨(classify_enrich
      [("X", ⟨"Ann", "Lee", "ann@x.io", "linkedin.com/in/ann", "x.io",
        "Engineer", "Seed", "$2M", "Summer 2025"⟩)]
      [("Company_Name", "X"), ("company_description", "d")] "X"
      (by decide) (by decide) (by decide)).mpr (by decide), by decide⟩

theorem hasKey_false_iff_get?_none (r : Record) (k : String) :
    hasKey r k = false ↔ get? r k = none := by
  induction r with
  | nil => simp [hasKey, get?]
  | cons p rest ih =>
    cases hp : p.1 == k
    · simp [hasKey, get?, hp, ih]
    · simp [hasKey, get?, hp]

/-- Claim C1 (confirmed): full functional behaviour of enrich_company.  If
the record's Company_Name is an override key, the enriched record carries
the override's founder, website, job and funding fields and the REAL marker;
otherwise it carries the "Team" sentinel, empty last name and LinkedIn,
"hello@" plus the derived domain as email, the derived domain as website,
the job listing chosen by keyword priority (AI/ML, then software/developer,
then data/analytics, then the fixed default) on the lowercased description,
the fixed funding defaults, and the PATTERN marker. -/
theorem enrich_company_correct (o : Overrides) (r : Record) (name desc : String)
    (d : FounderData) (hn : get? r "Company_Name" = some name) :
    (findData o name = some d →
      (enrich_company o r).isSome = true
      ∧ get? (enrichOut o r) "founder_first_name" = some d.founder_first
      ∧ get? (enrichOut o r) "founder_last_name" = some d.founder_last
      ∧ get? (enrichOut o r) "founder_email" = some d.founder_email
      ∧ get? (enrichOut o r) "founder_linkedin" = some d.founder_linkedin
      ∧ get? (enrichOut o r) "website" = some d.website
      ∧ get? (enrichOut o r) "job_openings" = some d.jobs
      ∧ get? (enrichOut o r) "funding_stage" = some d.funding_stage
      ∧ get? (enrichOut o r) "amount_raised" = some d.amount_raised
      ∧ get? (enrichOut o r) "date_raised" = some d.date_raised
      ∧ get? (enrichOut o r) "data_quality" = some REAL)
    ∧ (findData o name = none → get? r "company_description" = some desc →
      (enrich_company o r).isSome = true
      ∧ get? (enrichOut o r) "founder_first_name" = some "Team"
      ∧ get? (enrichOut o r) "founder_last_name" = some ""
      ∧ get? (enrichOut o r) "founder_email" = some ("hello@" ++ extract_domain name)
      ∧ get? (enrichOut o r) "founder_linkedin" = some ""
      ∧ get? (enrichOut o r) "website" = some (extract_domain name)
      ∧ get? (enrichOut o r) "job_openings" = some
          (if aiWords.any (fun w => containsStr w (pyLower desc)) then
            "ML Engineering Intern, AI Research Intern"
          else if devWords.any (fun w => containsStr w (pyLower desc)) then
            "Software Engineering Intern, Product Engineering Intern"
          else if dataWords.any (fun w => containsStr w (pyLower desc)) then
            "Data Science Intern, Analytics Intern"
          else "Software Engineering Intern, Product Intern")
      ∧ get? (enrichOut o r) "funding_stage" = some "Seed"
      ∧ get? (enrichOut o r) "amount_raised" = some "$1.5M"
      ∧ get? (enrichOut o r) "date_raised" = some "Summer 2025"
      ∧ get? (enrichOut o r) "data_quality" = some PATTERN) := by
  constructor
  · intro hfd
    have hsome : (enrich_company o r).isSome = true := by
      unfold enrich_company
      simp [hn, hfd]
    have hout : enrichOut o r = setKeys r (realFields d) := by
      unfold enrichOut enrich_company
      simp only [hn, hfd, Option.getD_some]
    rw [hout]
    exact ⟨hsome,
      get?_realFields (by simp [realFields]),
      get?_realFields (by simp [realFields]),
      get?_realFields (by simp [realFields]),
      get?_realFields (by simp [realFields]),
      get?_realFields (by simp [realFields]),
      get?_realFields (by simp [realFields]),
      get?_realFields (by simp [realFields]),
      get?_realFields (by simp [realFields]),
      get?_realFields (by simp [realFields]),
      get?_realFields (by simp [realFields])⟩
  · intro hfd hdesc
    have hsome : (enrich_company o r).isSome = true := by
      unfold enrich_company
      simp [hn, hfd, hdesc]
    have hout : enrichOut o r = setKeys r
        (patternFields (extract_domain name) (pickJobs (pyLower desc))) := by
      unfold enrichOut enrich_company
      simp only [hn, hfd, hdesc, Option.getD_some]
    rw [hout]
    exact ⟨hsome,
      get?_patternFields (by simp [patternFields]),
      get?_patternFields (by simp [patternFields]),
      get?_patternFields (by simp [patternFields]),
      get?_patternFields (by simp [patternFields]),
      get?_patternFields (by simp [patternFields]),
      get?_patternFields (by simp [patternFields, pickJobs]),
      get?_patternFields (by simp [patternFields]),
      get?_patternFields (by simp [patternFields]),
      get?_patternFields (by simp [patternFields]),
      get?_patternFields (by simp [patternFields])⟩

/-- Witness for C1: the PATTERN branch on a concrete record with an AI
description and an empty override table. -/
theorem enrich_company_correct_witness :
    (enrich_company [] [("Company_Name", "Acme"),
      ("company_description", "We build AI tools")]).isSome = true
    ∧ get? (enrichOut [] [("Company_Name", "Acme"),
        ("company_description", "We build AI tools")]) "founder_first_name"
        = some "Team"
    ∧ get? (enrichOut [] [("Company_Name", "Acme"),
        ("company_description", "We build AI tools")]) "founder_last_name"
        = some ""
    ∧ get? (enrichOut [] [("Company_Name", "Acme"),
        ("company_description", "We build AI tools")]) "founder_email"
        = some ("hello@" ++ extract_domain "Acme")
    ∧ get? (enrichOut [] [("Company_Name", "Acme"),
        ("company_description", "We build AI tools")]) "founder_linkedin"
        = some ""
    ∧ get? (enrichOut [] [("Company_Name", "Acme"),
        ("company_description", "We build AI tools")]) "website"
        = some (extract_domain "Acme")
    ∧ get? (enrichOut [] [("Company_Name", "Acme"),
        ("company_description", "We build AI tools")]) "job_openings"
        = some
          (if aiWords.any (fun w => containsStr w (pyLower "We build AI tools")) then
            "ML Engineering Intern, AI Research Intern"
          else if devWords.any (fun w => containsStr w (pyLower "We build AI tools")) then
            "Software Engineering Intern, Product Engineering Intern"
          else if dataWords.any (fun w => containsStr w (pyLower "We build AI tools")) then
            "Data Science Intern, Analytics Intern"
          else "Software Engineering Intern, Product Intern")
    ∧ get? (enrichOut [] [("Company_Name", "Acme"),
        ("company_description", "We build AI tools")]) "funding_stage"
        = some "Seed"
    ∧ get? (enrichOut [] [("Company_Name", "Acme"),
        ("company_description", "We build AI tools")]) "amount_raised"
        = some "$1.5M"
    ∧ get? (enrichOut [] [("Company_Name", "Acme"),
        ("company_description", "We build AI tools")]) "date_raised"
        = some "Summer 2025"
    ∧ get? (enrichOut [] [("Company_Name", "Acme"),
        ("company_description", "We build AI tools")]) "data_quality"
        = some PATTERN :=
  (enrich_company_correct [] [("Company_Name", "Acme"),
      ("company_description", "We build AI tools")] "Acme" "We build AI tools"
      ⟨"", "", "", "", "", "", "", "", ""⟩ rfl).2 rfl rfl

/-- Claim C6 (corrected), counterexample: enrich_company fails — KeyError,
modelled as none — on a record that lacks an expected column, instead of
substituting the empty string: with the description column missing (and on
the fully empty record, missing Company_Name). -/
theorem enrich_company_missing_field_fails :
    enrich_company [] [("Company_Name", "X")] = none
    ∧ enrich_company [] [] = none :=
  ⟨rfl, rfl⟩

/-- Claim C6 (corrected), amended: the classification and merge operations
read missing fields as the empty string and always complete (they use
defaulted lookups, and are total functions here), but enrich_company raises
KeyError exactly when the record lacks Company_Name, or lacks
company_description while its name has no override entry. -/
theorem enrich_company_none_iff (o : Overrides) (r : Record) :
    enrich_company o r = none ↔
      (hasKey r "Company_Name" = false
        ∨ (hasKey r "Company_Name" = true
            ∧ findData o (getD r "Company_Name" "") = none
            ∧ hasKey r "company_description" = false)) := by
  cases hname : get? r "Company_Name" with
  | none =>
    have hk : hasKey r "Company_Name" = false :=
      (hasKey_false_iff_get?_none r "Company_Name").mpr hname
    unfold enrich_company
    simp [hname, hk]
  | some name =>
    have hk : hasKey r "Company_Name" = true := by
      cases h : hasKey r "Company_Name"
      · rw [(hasKey_false_iff_get?_none r "Company_Name").mp h] at hname
        cases hname
      · rfl
    have hgd : getD r "Company_Name" "" = name := by
      unfold getD
      rw [hname]
      rfl
    cases hfd : findData o name with
    | some d =>
      unfold enrich_company
      simp [hname, hfd, hk, hgd]
    | none =>
      cases hdesc : get? r "company_description" with
      | none =>
        have hkd : hasKey r "company_description" = false :=
          (hasKey_false_iff_get?_none r "company_description").mpr hdesc
        unfold enrich_company
        simp [hname, hfd, hdesc, hk, hgd, hkd]
      | some desc =>
        have hkd : hasKey r "company_description" = true := by
          cases h : hasKey r "company_description"
          · rw [(hasKey_false_iff_get?_none r "company_description").mp h] at hdesc
            cases hdesc
          · rfl
        unfold enrich_company
        simp [hname, hfd, hdesc, hk, hgd, hkd]

/-- Claim C10 (confirmed): frame property of enrich_company.  Every key of
the input outside the ten enriched fields keeps its value in the output, and
no key of the input record is removed. -/
theorem enrich_company_frame (o : Overrides) (r : Record) (k : String)
    (hs : (enrich_company o r).isSome = true) :
    (k ∉ enrichedFields → get? (enrichOut o r) k = get? r k)
    ∧ (hasKey r k = true → hasKey (enrichOut o r) k = true) := by
  cases hname : get? r "Company_Name" with
  | none =>
    exfalso
    unfold enrich_company at hs
    simp only [hname] at hs
    simp at hs
  | some name =>
    cases hfd : findData o name with
    | some d =>
      have hout : enrichOut o r = setKeys r (realFields d) := by
        unfold enrichOut enrich_company
        simp only [hname, hfd, Option.getD_some]
      rw [hout]
      exact ⟨fun hk => get?_setKeys_ne _ _
          (fun q hq hc => hk (hc ▸ realFields_key_mem d hq)),
        fun hh => hasKey_setKeys_of _ hh⟩
    | none =>
      cases hdesc : get? r "company_description" with
      | none =>
        exfalso
        unfold enrich_company at hs
        simp only [hname, hfd, hdesc] at hs
        simp at hs
      | some desc =>
        have hout : enrichOut o r = setKeys r
            (patternFields (extract_domain name) (pickJobs (pyLower desc))) := by
          unfold enrichOut enrich_company
          simp only [hname, hfd, hdesc, Option.getD_some]
        rw [hout]
        exact ⟨fun hk => get?_setKeys_ne _ _
            (fun q hq hc => hk (hc ▸ patternFields_key_mem _ _ hq)),
          fun hh => hasKey_setKeys_of _ hh⟩

/-- Witness for C10: a concrete record's YC_Link survives enrichment with
its value, and its keys are all still present. -/
theorem enrich_company_frame_witness :
    get? (enrichOut [] [("Company_Name", "Acme"), ("YC_Link", "L"),
      ("company_description", "d")]) "YC_Link" = some "L"
    ∧ hasKey (enrichOut [] [("Company_Name", "Acme"), ("YC_Link", "L"),
      ("company_description", "d")]) "YC_Link" = true :=
  ⟨((enrich_company_frame [] [("Company_Name", "Acme"), ("YC_Link", "L"),
      ("company_description", "d")] "YC_Link" (by decide)).1 (by decide)).trans rfl,
    (enrich_company_frame [] [("Company_Name", "Acme"), ("YC_Link", "L"),
      ("company_description", "d")] "YC_Link" (by decide)).2 rfl⟩

/-- Claim C8 (confirmed): parse_funding_info applies its patterns in order —
a pattern-1 match fixes the result and patterns 2 and 3 are not consulted —
the (round, amount) assignment within a match follows which capture group
contains "$" (for these patterns a group contains "$" exactly when it starts
with it), and on "Acme raised $2M in a seed round" it returns round "seed"
and amount "$2M". -/
theorem parse_funding_info_spec (text company_name g1 g2 : String) :
    (searchP matchP1At text.data = some (g1, g2) →
      parse_funding_info text company_name =
        (if containsStr "$" g1 then (some g2, some g1) else (some g1, some g2)))
    ∧ (tryPatterns text.data = some (g1, g2) →
      parse_funding_info text company_name =
        (if containsStr "$" g1 then (some g2, some g1) else (some g1, some g2)))
    ∧ parse_funding_info "Acme raised $2M in a seed round" company_name
        = (some "seed", some "$2M") := by
  refine ⟨?_, ?_, ?_⟩
  · intro h
    have htry : tryPatterns text.data = some (g1, g2) := by
      unfold tryPatterns
      rw [h]
    unfold parse_funding_info
    rw [htry]
  · intro h
    unfold parse_funding_info
    rw [h]
  · rfl

/-- Witness for C8: the pattern-1 search on the example text yields the
groups ("$2M", "seed"), and the result assigns the dollar group as amount. -/
theorem parse_funding_info_witness :
    searchP matchP1At "Acme raised $2M in a seed round".data = some ("$2M", "seed")
    ∧ parse_funding_info "Acme raised $2M in a seed round" "Acme"
        = (some "seed", some "$2M") :=
  ⟨by decide,
    (parse_funding_info_spec "Acme raised $2M in a seed round" "Acme"
      "$2M" "seed").1 (by decide)⟩
